import Mathlib

/-!
Verification of the winmole safety-gated deletion core.

This file shallowly embeds the Go sources under `src/` — the whitelist store
(`pkg/whitelist/whitelist.go`) and the deletion engine
(`internal/core/fileops.go`) — together with the pieces of the Go standard
library they call (`strings.TrimSpace`, `strings.EqualFold`, `strings.ToLower`,
`strings.HasPrefix`, `os.Expand`/`os.ExpandEnv`, `path/filepath.Clean`,
`path/filepath.Match` and `path/filepath.WalkDir`, all in their Windows
behaviour, since the repository builds only for Windows).

Strings are embedded as `List Char`; every input exercised by the repository is
ASCII (or Latin-1), so byte-level Go code and rune-level Go code agree on this
domain.  Filesystem interaction is embedded by passing the outcome of each
system call (`Lstat`, `Remove`, walk results, …) as explicit inputs, and the
engine additionally returns the trace of calls it performed, so that
frame/effect claims (nothing is removed in dry-run mode, …) are statable.
-/

namespace WinMole

abbrev Str := List Char

/-- Go `unicode.IsSpace` restricted to the Latin-1 range, which is the part
`strings.TrimSpace` can observe on the ASCII inputs of this code base. -/
def isSpaceGo (c : Char) : Bool :=
  c = ' ' ∨ c = '\t' ∨ c = '\n' ∨ c = (Char.ofNat 11) ∨ c = (Char.ofNat 12) ∨
  c = '\r' ∨ c = (Char.ofNat 0x85) ∨ c = (Char.ofNat 0xA0)

/-- Go `strings.TrimSpace`: drop leading and trailing white space. -/
def trimSpace (s : Str) : Str :=
  ((s.dropWhile isSpaceGo).reverse.dropWhile isSpaceGo).reverse

/-- Simple case folding of one character; on the ASCII inputs of this code
base this is exactly the folding used by Go `strings.EqualFold`. -/
def foldChar (c : Char) : Char :=
  if 'A' ≤ c ∧ c ≤ 'Z' then Char.ofNat (c.toNat + 32) else c

/-- Go `strings.ToLower` (ASCII domain). -/
def toLowerGo (s : Str) : Str := s.map foldChar

/-- Go `strings.EqualFold` (ASCII domain): equality after per-character
simple case folding. -/
def equalFold : Str → Str → Bool
  | [], [] => true
  | a :: as, b :: bs => foldChar a = foldChar b && equalFold as bs
  | _, _ => false

/-- Go `strings.HasPrefix pre s` (argument order: the candidate leading
segment first, then the searched string). -/
def strStarts : Str → Str → Bool
  | [], _ => true
  | _ :: _, [] => false
  | c :: cs, d :: ds => c = d && strStarts cs ds

/-- Split a character stream at every newline, the way `bufio.Scanner` with
`ScanLines` delivers lines (a trailing empty fragment after a final newline is
produced here but is blank, and blank lines are skipped by the caller, so the
two behaviours agree on `Load`). -/
def splitNl : Str → List Str
  | [] => [[]]
  | c :: cs =>
    match splitNl cs with
    | [] => [[]]
    | l :: ls => if c = '\n' then [] :: l :: ls else (c :: l) :: ls

/-- `bufio` `dropCR`: `ScanLines` strips one trailing carriage return from
each delivered line. -/
def dropCR (l : Str) : Str :=
  if l.getLast? = some '\r' then l.dropLast else l

end WinMole

namespace Whitelist

open WinMole

/-- `defaultPatterns` from `pkg/whitelist/whitelist.go`: the initial whitelist
entries seeded when no whitelist file exists. -/
def defaultPatterns : List Str :=
  ["%USERPROFILE%\\.cargo\\bin\\*".data,
   "%LOCALAPPDATA%\\JetBrains\\*".data,
   "%APPDATA%\\Code\\User\\*".data]

/-- The scanning loop of `Load`: trim each line, skip blanks and `#` comment
lines, keep everything else in order. -/
def loadLines (content : Str) : List Str :=
  (splitNl content).foldr
    (fun line acc =>
      let t := trimSpace (dropCR line)
      if t = [] ∨ t.headD ' ' = '#' then acc else t :: acc) []

/-- `Load`: a missing file (`none`) seeds the defaults (and persists them);
an existing file (`some content`) is parsed line by line. -/
def load (input : Option Str) : List Str :=
  match input with
  | none => defaultPatterns
  | some content => loadLines content

/-- The three comment lines `Save` writes at the top of the whitelist file. -/
def headerLines : List Str :=
  ["# WinMole whitelist — one glob pattern per line".data,
   "# Lines starting with # are comments".data,
   "# Environment variables (e.g. %USERPROFILE%) are expanded at runtime".data]

/-- `Save`: the exact file content written for a given pattern list — the
three comment lines, a blank line, then one pattern per line. -/
def saveContent (patterns : List Str) : Str :=
  (headerLines.foldr (fun l acc => l ++ '\n' :: acc) []) ++
    '\n' :: patterns.foldr (fun p acc => p ++ '\n' :: acc) []

inductive AddErr where
  | emptyPattern : AddErr
  | duplicate : AddErr
  deriving DecidableEq

/-- `Add` from `pkg/whitelist/whitelist.go`: trim, reject blank, reject a
case-insensitive duplicate, otherwise append.  (The Go function performs no
other validation.) -/
def Add (patterns : List Str) (pattern : Str) : Except AddErr (List Str) :=
  let pattern := trimSpace pattern
  if pattern = [] then .error .emptyPattern
  else if patterns.any (fun existing => equalFold existing pattern) then
    .error .duplicate
  else .ok (patterns ++ [pattern])

inductive RemoveErr where
  | emptyPattern : RemoveErr
  | notFound : RemoveErr
  deriving DecidableEq

/-- The scan of `Remove`: delete the first case-insensitive match. -/
def removeFirst (patterns : List Str) (pattern : Str) : Option (List Str) :=
  match patterns with
  | [] => none
  | existing :: rest =>
    if equalFold existing pattern then some rest
    else match removeFirst rest pattern with
         | some rest' => some (existing :: rest')
         | none => none

/-- `Remove` from `pkg/whitelist/whitelist.go`. -/
def Remove (patterns : List Str) (pattern : Str) : Except RemoveErr (List Str) :=
  let pattern := trimSpace pattern
  if pattern = [] then .error .emptyPattern
  else match removeFirst patterns pattern with
       | some rest => .ok rest
       | none => .error .notFound

/-- The data-model invariant: no two stored patterns are equal under
case-insensitive comparison. -/
def uniqFold : List Str → Bool
  | [] => true
  | p :: ps => !ps.any (fun q => equalFold p q) && uniqFold ps

end Whitelist

namespace GoOs

open WinMole

/-- `os.isShellSpecialVar`. -/
def isShellSpecialVar (c : Char) : Bool :=
  c = '*' ∨ c = '#' ∨ c = '$' ∨ c = '@' ∨ c = '!' ∨ c = '?' ∨ c = '-' ∨
  ('0' ≤ c ∧ c ≤ '9')

/-- `os.isAlphaNum`. -/
def isAlphaNum (c : Char) : Bool :=
  c = '_' ∨ ('0' ≤ c ∧ c ≤ '9') ∨ ('a' ≤ c ∧ c ≤ 'z') ∨ ('A' ≤ c ∧ c ≤ 'Z')

/-- The brace scan of `os.getShellName` starting after `${`: find the closing
brace, returning the name and the number of consumed characters; `([], 2)`
eats a bad `${}` and `([], 1)` eats an unterminated `${`. -/
def braceScan : Str → Nat → Str → Str × Nat
  | [], _, _ => ([], 1)
  | '}' :: _, i, acc => if i = 1 then ([], 2) else (acc.reverse, i + 1)
  | c :: cs, i, acc => braceScan cs (i + 1) (c :: acc)

/-- `os.getShellName s`: the variable name following a `$` and the number of
characters of `s` it occupies. -/
def getShellName : Str → Str × Nat
  | [] => ([], 0)
  | '{' :: cs =>
    match cs with
    | c1 :: '}' :: _ =>
      if isShellSpecialVar c1 then ([c1], 3) else braceScan cs 1 []
    | _ => braceScan cs 1 []
  | c :: cs =>
    if isShellSpecialVar c then ([c], 1)
    else
      let name := (c :: cs).takeWhile isAlphaNum
      (name, name.length)

/-- The loop of `os.Expand` (hence `os.ExpandEnv`): substitute `$name` and
`$\x7bname\x7d` references using `env` (`os.Getenv` returns the empty string
for an unset variable); all other characters — in particular `%` — are copied
verbatim.  `fuel` is an upper bound on the number of loop iterations; the
caller supplies the input length, which always suffices because every
iteration consumes at least one character. -/
def expandFuel (env : Str → Str) : Nat → Str → Str
  | 0, s => s
  | _ + 1, [] => []
  | fuel + 1, c :: cs =>
    if c = '$' ∧ cs ≠ [] then
      let (name, w) := getShellName cs
      if name = [] ∧ w > 0 then expandFuel env fuel (cs.drop w)
      else if name = [] then '$' :: expandFuel env fuel (cs.drop w)
      else env name ++ expandFuel env fuel (cs.drop w)
    else c :: expandFuel env fuel cs

/-- `os.ExpandEnv` over an explicit environment. -/
def expandEnv (env : Str → Str) (s : Str) : Str :=
  expandFuel env s.length s

end GoOs

namespace GoFilepath

open WinMole

/-- Windows `os.IsPathSeparator`: both slashes separate. -/
def isSlash (c : Char) : Bool := c = '\\' ∨ c = '/'

/-- Windows `filepath.FromSlash`: forward slashes become backslashes. -/
def fromSlash (s : Str) : Str := s.map (fun c => if c = '/' then '\\' else c)

/-- Windows `filepath.volumeNameLen`: length of the leading volume name
(`C:` drive letters; `\\host\share` UNC prefixes). -/
def volumeNameLen (path : Str) : Nat :=
  match path with
  | c0 :: ':' :: _ =>
    if ('a' ≤ c0 ∧ c0 ≤ 'z') ∨ ('A' ≤ c0 ∧ c0 ≤ 'Z') then 2 else uncLen path
  | _ => uncLen path
where
  /-- The UNC scan of `volumeNameLen`. -/
  uncLen (path : Str) : Nat :=
    let l := path.length
    match path with
    | c0 :: c1 :: c2 :: rest =>
      if l ≥ 5 ∧ isSlash c0 ∧ isSlash c1 ∧ ¬isSlash c2 ∧ c2 ≠ '.' then
        match (rest.takeWhile (fun c => ¬isSlash c)).length with
        | k =>
          let n := 3 + k
          if n + 1 ≥ l then 0
          else
            match (path.drop (n + 1)).headD ' ' with
            | c =>
              if isSlash c ∨ c = '.' then 0
              else n + 1 + ((path.drop (n + 1)).takeWhile (fun c => ¬isSlash c)).length
      else 0
    | _ => 0

/-- The backtracking scan in the `..` case of `filepath.Clean`: starting from
position `k` in the output buffer, step back while above `dotdot` and not
standing on a separator. -/
def cleanBacktrack (out : Str) (dotdot : Nat) : Nat → Nat
  | 0 => 0
  | k + 1 =>
    if k + 1 > dotdot ∧ ¬isSlash (out.getD (k + 1) ' ') then
      cleanBacktrack out dotdot k
    else k + 1

/-- The main loop of Windows `filepath.Clean` over the path with the volume
name removed; `out` is the produced buffer, `dotdot` the earliest position
`..` may back up to.  `fuel` bounds the number of loop iterations; the caller
passes the input length, which suffices because every iteration consumes at
least one input character. -/
def cleanLoop (rooted : Bool) : Nat → Str → Str → Nat → Str
  | 0, _, out, _ => out
  | _ + 1, [], out, _ => out
  | fuel + 1, c :: rest, out, dotdot =>
    if isSlash c then cleanLoop rooted fuel rest out dotdot
    else if c = '.' ∧ (rest = [] ∨ isSlash (rest.headD ' ')) then
      cleanLoop rooted fuel rest out dotdot
    else if c = '.' ∧ rest.headD ' ' = '.' ∧
        (rest.tail = [] ∨ isSlash (rest.tail.headD ' ')) then
      if out.length > dotdot then
        let w := cleanBacktrack out dotdot (out.length - 1)
        cleanLoop rooted fuel rest.tail (out.take w) dotdot
      else if ¬rooted then
        let out := (if out.length > 0 then out ++ ['\\'] else out) ++ ['.', '.']
        cleanLoop rooted fuel rest.tail out out.length
      else cleanLoop rooted fuel rest.tail out dotdot
    else
      let out :=
        if (rooted ∧ out.length ≠ 1) ∨ (¬rooted ∧ out.length ≠ 0) then
          out ++ ['\\']
        else out
      let elem := (c :: rest).takeWhile (fun d => ¬isSlash d)
      cleanLoop rooted fuel ((c :: rest).dropWhile (fun d => ¬isSlash d))
        (out ++ elem) dotdot

/-- Windows `path/filepath.Clean`. -/
def clean (path : Str) : Str :=
  if path = [] then ['.']
  else
    let volLen := volumeNameLen path
    let p := path.drop volLen
    if p = [] then
      if volLen > 1 ∧ isSlash (path.headD ' ') ∧
          isSlash ((path.drop 1).headD ' ') then
        fromSlash path
      else path ++ ['.']
    else
      let rooted := isSlash (p.headD ' ')
      let out0 : Str := if rooted then ['\\'] else []
      let dotdot0 : Nat := if rooted then 1 else 0
      let out := cleanLoop rooted p.length p out0 dotdot0
      let out := if out = [] then ['.'] else out
      fromSlash (path.take volLen ++ out)

/-- `filepath.scanChunk`: strip leading `*`s. -/
def stripStars : Str → Bool × Str
  | '*' :: cs => (true, (stripStars cs).2)
  | s => (false, s)

/-- `filepath.scanChunk`: cut the pattern at the next top-level `*` (Windows:
the backslash is an ordinary character, not an escape). -/
def chunkScan : Str → Bool → Str × Str
  | [], _ => ([], [])
  | c :: cs, inrange =>
    if c = '*' ∧ ¬inrange then ([], c :: cs)
    else
      let inr := if c = '[' then true else if c = ']' then false else inrange
      let r := chunkScan cs inr
      (c :: r.1, r.2)

/-- `filepath.scanChunk`. -/
def scanChunk (pattern : Str) : Bool × Str × Str :=
  let (star, p) := stripStars pattern
  let (chunk, rest) := chunkScan p false
  (star, chunk, rest)

/-- `filepath.getEsc` on Windows (no backslash escapes): one character-class
member; `ErrBadPattern` on an empty, `-`- or `]`-headed chunk, or when
nothing follows the member. -/
def getEsc : Str → Except Unit (Char × Str)
  | [] => .error ()
  | c :: cs =>
    if c = '-' ∨ c = ']' then .error ()
    else if cs = [] then .error ()
    else .ok (c, cs)

/-- The range-parsing loop of the `[` case of `filepath.matchChunk`:
accumulate whether `r` falls in some `lo-hi` range, until the closing `]`
(which must follow at least one range).  `fuel` bounds iterations; the caller
passes the chunk length plus one, which suffices because every iteration
consumes at least one character. -/
def rangeLoop (r : Char) : Nat → Str → Bool → Nat → Except Unit (Bool × Str)
  | 0, _, _, _ => .error ()
  | _ + 1, ']' :: rest, m, _ + 1 => .ok (m, rest)
  | fuel + 1, chunk, m, nrange =>
    match getEsc chunk with
    | .error e => .error e
    | .ok (lo, rest) =>
      match rest with
      | '-' :: rest2 =>
        match getEsc rest2 with
        | .error e => .error e
        | .ok (hi, rest3) =>
          rangeLoop r fuel rest3 (m || (decide (lo ≤ r) && decide (r ≤ hi)))
            (nrange + 1)
      | _ =>
        rangeLoop r fuel rest (m || (decide (lo ≤ r) && decide (r ≤ lo)))
          (nrange + 1)

/-- `filepath.matchChunk` on Windows: match the fixed-width chunk against the
head of `s`, returning the unmatched remainder; after a mismatch (`failed`)
the chunk is still parsed to completion so syntax errors are reported.
`fuel` bounds iterations; chunk length plus one suffices. -/
def matchChunk : Nat → Str → Str → Bool → Except Unit (Option Str)
  | 0, _, _, _ => .error ()
  | _ + 1, [], s, failed => .ok (if failed then none else some s)
  | fuel + 1, c :: chunk, s, failed =>
    let failed := failed || s.isEmpty
    if c = '[' then
      let r := if failed then Char.ofNat 0 else s.headD (Char.ofNat 0)
      let s' := if failed then s else s.tail
      let (neg, ch1) :=
        match chunk with
        | '^' :: t => (true, t)
        | t => (false, t)
      match rangeLoop r (ch1.length + 1) ch1 false 0 with
      | .error e => .error e
      | .ok (m, rest) => matchChunk fuel rest s' (failed || (m == neg))
    else if c = '?' then
      if failed then matchChunk fuel chunk s failed
      else matchChunk fuel chunk s.tail (s.headD ' ' = '\\')
    else
      if failed then matchChunk fuel chunk s failed
      else matchChunk fuel chunk s.tail (¬s.headD ' ' = c)

/-- The two loop states of `filepath.Match`: the top of the `Pattern` loop,
and the star loop that slides the chunk along the name. -/
inductive MatchState where
  | pat : Str → Str → MatchState
  | star : Bool → Str → Str → Str → MatchState

/-- One transition system covering both loops of Windows `filepath.Match`.
`fuel` bounds the number of transitions; `(pattern.length + 1) *
(name.length + 2) + 1` suffices because the pattern shrinks strictly between
`pat` states and the name shrinks strictly between `star` states. -/
def matchStep : Nat → MatchState → Except Unit Bool
  | 0, _ => .error ()
  | _ + 1, .pat [] name => .ok (decide (name = []))
  | fuel + 1, .pat (p :: ps) name =>
    let (star, chunk, rest) := scanChunk (p :: ps)
    if star ∧ chunk = [] then .ok (!name.contains '\\')
    else
      match matchChunk (chunk.length + 1) chunk name false with
      | .ok (some t) =>
        if t = [] ∨ rest ≠ [] then matchStep fuel (.pat rest t)
        else if star then matchStep fuel (.star star chunk rest name)
        else .ok false
      | .ok none =>
        if star then matchStep fuel (.star star chunk rest name)
        else .ok false
      | .error e => .error e
  | _ + 1, .star _ _ _ [] => .ok false
  | fuel + 1, .star star chunk rest (c :: t) =>
    if c = '\\' then .ok false
    else
      match matchChunk (chunk.length + 1) chunk t false with
      | .ok (some t') =>
        if rest = [] ∧ t' ≠ [] then matchStep fuel (.star star chunk rest t)
        else matchStep fuel (.pat rest t')
      | .ok none => matchStep fuel (.star star chunk rest t)
      | .error e => .error e

/-- Windows `path/filepath.Match`. -/
def matchGo (pattern name : Str) : Except Unit Bool :=
  matchStep ((pattern.length + 1) * (name.length + 2) + 1) (.pat pattern name)

end GoFilepath

namespace Whitelist

open WinMole GoOs GoFilepath

/-- `IsWhitelisted` from `pkg/whitelist/whitelist.go`: clean the query path;
for each stored pattern, expand environment variables with `os.ExpandEnv`
(dollar syntax only) and clean the result, then test case-insensitive
equality, a lower-cased glob match, and — for glob-free patterns — a
directory-prefix match guarded with a trailing separator. -/
def IsWhitelisted (env : Str → Str) (patterns : List Str) (path : Str) : Bool :=
  let cleaned := clean path
  patterns.any fun pattern =>
    let expanded := clean (expandEnv env pattern)
    equalFold cleaned expanded ||
    (match matchGo (toLowerGo expanded) (toLowerGo cleaned) with
     | .ok b => b
     | .error _ => false) ||
    (!(expanded.any fun c => c = '*' ∨ c = '?' ∨ c = '[') &&
     strStarts (toLowerGo expanded ++ ['\\']) (toLowerGo cleaned ++ ['\\']))

end Whitelist

namespace Core

open WinMole

/-- `maxRetries` from `internal/core/fileops.go`. -/
def maxRetries : Nat := 3

/-- `baseBackoff` from `internal/core/fileops.go`, in milliseconds. -/
def baseBackoffMs : Nat := 500

/-- Classification of one failed removal attempt, mirroring
`isRetryableError` (`ERROR_SHARING_VIOLATION`, `ERROR_LOCK_VIOLATION`) and
`isAccessDenied` (`ERROR_ACCESS_DENIED` / permission errors); everything else
is `otherErr`. -/
inductive RmKind where
  | sharing : RmKind
  | lockViolation : RmKind
  | accessDenied : RmKind
  | otherErr : RmKind
  deriving DecidableEq

instance : Fintype RmKind where
  elems := {RmKind.sharing, RmKind.lockViolation, RmKind.accessDenied, RmKind.otherErr}
  complete := by intro x; cases x <;> simp

/-- The trace of system calls `SafeDelete`/`SafeCleanDir` perform:
`lstat`/`stat`/`dirSize`/`glob` are reads, `sleep` is a delay, and
`removeAttempt`/`chmod` are the filesystem mutations. -/
inductive Effect where
  | lstat : Effect
  | stat : Effect
  | dirSize : Effect
  | glob : Effect
  | sleep : Nat → Effect
  | removeAttempt : Nat → Effect
  | chmod : Effect
  deriving DecidableEq

/-- An effect that mutates the filesystem (a removal attempt or a
permission-bit change). -/
def Effect.mutating : Effect → Bool
  | .removeAttempt _ => true
  | .chmod => true
  | _ => false

/-- Outcome of `os.Lstat`/`os.Stat` on the candidate path. -/
inductive StatRes where
  | notExist : StatRes
  | statErr : StatRes
  | ok : Bool → Int → StatRes
  deriving DecidableEq

-- A directory tree as `filepath.WalkDir` observes it: files whose `Info()`
-- may fail, directories whose `ReadDir` may fail, and lists of entries.
mutual
inductive FsTree where
  | file : Option Int → FsTree
  | dirErr : FsTree
  | dir : FsList → FsTree
inductive FsList where
  | nil : FsList
  | cons : FsTree → FsList → FsList
end

-- `filepath.WalkDir` specialised to the callback of `GetDirSize`: the
-- callback returns nil on every entry (including erroring ones), adds the
-- size of non-directory entries whose `Info()` succeeds, and the walk
-- threads the callback's returned error (always nil).
mutual
def walkDir : FsTree → Int → Int × Option Unit
  | FsTree.file info, total =>
    ((match info with
      | some sz => total + sz
      | none => total), none)
  | FsTree.dirErr, total => (total, none)
  | FsTree.dir entries, total => walkDirList entries total
def walkDirList : FsList → Int → Int × Option Unit
  | FsList.nil, total => (total, none)
  | FsList.cons t ts, total =>
    match walkDir t total with
    | (tot, some e) => (tot, some e)
    | (tot, none) => walkDirList ts tot
end

/-- `GetDirSize` from `internal/core/fileops.go`: `filepath.WalkDir` with the
size-accumulating callback (a failing root `Lstat` is handed to the callback,
which returns nil, so the walk visits nothing); a non-nil walk result is
wrapped and returned as an error. -/
def GetDirSize (root : Except Unit FsTree) : Except Unit Int :=
  let walkRes : Int × Option Unit :=
    match root with
    | .error _ => (0, none)
    | .ok t => walkDir t 0
  match walkRes with
  | (total, none) => .ok total
  | (_, some _) => .error ()

/-- The retry loop of `SafeDelete`: one entry of the outcome list per
removal attempt the loop may make (`maxRetries` of them); before every
attempt after the first, sleep `baseBackoff * 2 ^ (attempt - 1)`; a sharing
or lock violation retries as is; access denied on a non-directory chmods and
retries; anything else breaks out.  Returns the trace and either the
succeeding attempt index or the last error. -/
def deleteLoop (isDir : Bool) :
    List (Option RmKind) → Nat → Option RmKind →
    List Effect × Except (Option RmKind) Nat
  | [], _, last => ([], .error last)
  | o :: rest, attempt, _ =>
    let pre : List Effect :=
      if attempt = 0 then [] else [Effect.sleep (baseBackoffMs * 2 ^ (attempt - 1))]
    match o with
    | none => (pre ++ [Effect.removeAttempt attempt], .ok attempt)
    | some k =>
      if k = RmKind.sharing ∨ k = RmKind.lockViolation then
        let r := deleteLoop isDir rest (attempt + 1) (some k)
        (pre ++ Effect.removeAttempt attempt :: r.1, r.2)
      else if k = RmKind.accessDenied ∧ isDir = false then
        let r := deleteLoop isDir rest (attempt + 1) (some k)
        (pre ++ Effect.removeAttempt attempt :: Effect.chmod :: r.1, r.2)
      else
        (pre ++ [Effect.removeAttempt attempt], .error (some k))

/-- The errors `SafeDelete` returns, each annotated with the path as the
`fmt.Errorf` wrappers do. -/
inductive DelErr where
  | safetyCheckFailed : Str → Str → DelErr
  | cannotStat : Str → DelErr
  | deleteFailed : Str → Nat → Option RmKind → DelErr
  deriving DecidableEq

/-- One `SafeDelete` call's environment: the path, the result `ValidatePath`
produces for it (the validator lives outside the provided sources and is
treated as an input), the `Lstat` outcome, the directory tree seen by
`GetDirSize` when the path is a directory, and the outcomes of the up to
three removal attempts. -/
structure Ctx where
  path : Str
  validateRes : Option Str
  stat : StatRes
  walk : Except Unit FsTree
  rm0 : Option RmKind
  rm1 : Option RmKind
  rm2 : Option RmKind

/-- `SafeDelete` from `internal/core/fileops.go`, returning
`((bytesFreed, error), trace)`. -/
def SafeDelete (c : Ctx) (dryRun : Bool) : (Int × Option DelErr) × List Effect :=
  match c.validateRes with
  | some e => ((0, some (DelErr.safetyCheckFailed c.path e)), [])
  | none =>
    match c.stat with
    | StatRes.notExist => ((0, none), [Effect.lstat])
    | StatRes.statErr => ((0, some (DelErr.cannotStat c.path)), [Effect.lstat])
    | StatRes.ok isDir fsize =>
      let size : Int :=
        if isDir then
          match GetDirSize c.walk with
          | .ok n => n
          | .error _ => 0
        else fsize
      let preEff : List Effect :=
        Effect.lstat :: (if isDir then [Effect.dirSize] else [])
      if dryRun then ((size, none), preEff)
      else
        let r := deleteLoop isDir [c.rm0, c.rm1, c.rm2] 0 none
        match r.2 with
        | .ok _ => ((size, none), preEff ++ r.1)
        | .error last =>
          ((0, some (DelErr.deleteFailed c.path maxRetries last)), preEff ++ r.1)

/-- The errors `SafeCleanDir` returns. -/
inductive CleanErr where
  | safetyCheckFailed : Str → Str → CleanErr
  | cannotStat : Str → CleanErr
  | notADirectory : Str → CleanErr
  | badPattern : Str → CleanErr
  deriving DecidableEq

/-- One `SafeCleanDir` call's environment: the directory, its `ValidatePath`
result, its `os.Stat` outcome, and the glob result — either `ErrBadPattern`
or the matches, each carrying the environment of its own `SafeDelete`. -/
structure CleanCtx where
  dir : Str
  validateRes : Option Str
  stat : StatRes
  globRes : Except Unit (List Ctx)

/-- The body of `SafeCleanDir`'s match loop: run `SafeDelete` on one match;
on failure the accumulated totals are unchanged (the error is dropped), on
success its freed bytes and one file are added; either way the match's trace
is appended and the loop continues. -/
def cleanStep (dryRun : Bool) (acc : Int × Nat × List Effect) (m : Ctx) :
    Int × Nat × List Effect :=
  let r := SafeDelete m dryRun
  match r.1.2 with
  | some _ => (acc.1, acc.2.1, acc.2.2 ++ r.2)
  | none => (acc.1 + r.1.1, acc.2.1 + 1, acc.2.2 ++ r.2)

/-- `SafeCleanDir` from `internal/core/fileops.go`, returning
`((totalBytes, totalFiles, error), trace)`: per-match `SafeDelete` failures
are skipped (the match contributes nothing) and the batch continues. -/
def SafeCleanDir (c : CleanCtx) (dryRun : Bool) :
    (Int × Nat × Option CleanErr) × List Effect :=
  match c.validateRes with
  | some e => ((0, 0, some (CleanErr.safetyCheckFailed c.dir e)), [])
  | none =>
    match c.stat with
    | StatRes.notExist => ((0, 0, none), [Effect.stat])
    | StatRes.statErr => ((0, 0, some (CleanErr.cannotStat c.dir)), [Effect.stat])
    | StatRes.ok isDir _ =>
      if isDir = false then
        ((0, 0, some (CleanErr.notADirectory c.dir)), [Effect.stat])
      else
        match c.globRes with
        | .error _ => ((0, 0, some (CleanErr.badPattern c.dir)), [Effect.stat, Effect.glob])
        | .ok ms =>
          let res := ms.foldl (cleanStep dryRun) (0, 0, [])
          ((res.1, res.2.1, none), Effect.stat :: Effect.glob :: res.2.2)

end Core

open WinMole

set_option maxRecDepth 100000

/-- A removal-attempt effect. -/
def isRemoveEff : Core.Effect → Bool
  | .removeAttempt _ => true
  | _ => false

/-- A sleep effect. -/
def isSleepEff : Core.Effect → Bool
  | .sleep _ => true
  | _ => false

/-- A removal outcome the engine retries as is: a sharing or lock
violation. -/
def retriable (o : Option Core.RmKind) : Bool :=
  o = some Core.RmKind.sharing ∨ o = some Core.RmKind.lockViolation

/-- A removal outcome the engine remediates: access denied on a
non-directory. -/
def adFile (isDir : Bool) (o : Option Core.RmKind) : Bool :=
  o = some Core.RmKind.accessDenied ∧ isDir = false

deriving instance DecidableEq for Except

/-- The retry loop run on the three possible attempt outcomes. -/
def c4Loop (d : Bool) (r0 r1 r2 : Option Core.RmKind) :
    List Core.Effect × Except (Option Core.RmKind) Nat :=
  Core.deleteLoop d [r0, r1, r2] 0 none

/-- The number of removal attempts the loop actually made. -/
def c4Attempts (d : Bool) (r0 r1 r2 : Option Core.RmKind) : Nat :=
  ((c4Loop d r0 r1 r2).1.filter isRemoveEff).length

/-- A concrete environment for the C1 witness: a path the validator blocks. -/
def c1ctx : Core.Ctx :=
  { path := "C:\\Windows".data
    validateRes := some "path is protected".data
    stat := Core.StatRes.ok true 7
    walk := .error ()
    rm0 := none, rm1 := none, rm2 := none }

/-- The environment used for the C3 evaluation: only `USERPROFILE` is set. -/
def envAlice : Str → Str :=
  fun n => if n = "USERPROFILE".data then "C:\\Users\\alice".data else []

/-- A concrete environment for the C4 witness: a file locked by a sharing
violation on all three attempts. -/
def c4ctx : Core.Ctx :=
  { path := "C:\\Temp\\locked.txt".data
    validateRes := none
    stat := Core.StatRes.ok false 10
    walk := .error ()
    rm0 := some Core.RmKind.sharing
    rm1 := some Core.RmKind.sharing
    rm2 := some Core.RmKind.sharing }

/-- A concrete environment for the C8 witness: a validated existing file. -/
def c8ctx : Core.Ctx :=
  { path := "C:\\Temp\\cache.bin".data
    validateRes := none
    stat := Core.StatRes.ok false 42
    walk := .error ()
    rm0 := none, rm1 := none, rm2 := none }

/-- Concrete matches for the C9 witness: three files, the middle one failing
every removal attempt with access denied on a directory (non-retryable). -/
def c9m1 : Core.Ctx :=
  { path := "C:\\Temp\\a.log".data, validateRes := none
    stat := Core.StatRes.ok false 5, walk := .error ()
    rm0 := none, rm1 := none, rm2 := none }

def c9m2 : Core.Ctx :=
  { path := "C:\\Temp\\b.log".data, validateRes := none
    stat := Core.StatRes.ok false 7, walk := .error ()
    rm0 := some Core.RmKind.otherErr, rm1 := none, rm2 := none }

def c9m3 : Core.Ctx :=
  { path := "C:\\Temp\\c.log".data, validateRes := none
    stat := Core.StatRes.ok false 11, walk := .error ()
    rm0 := none, rm1 := none, rm2 := none }

def c9ctx : Core.CleanCtx :=
  { dir := "C:\\Temp".data, validateRes := none
    stat := Core.StatRes.ok true 0
    globRes := .ok [c9m1, c9m2, c9m3] }

/-- A concrete environment for the C10 witness: a validated directory whose
root `Lstat` during the walk fails (the callback absorbs even that). -/
def c10ctx : Core.Ctx :=
  { path := "C:\\Temp\\dir".data
    validateRes := none
    stat := Core.StatRes.ok true 9
    walk := .error ()
    rm0 := none, rm1 := none, rm2 := none }

/-- C1: whenever the path validator reports an error, `SafeDelete` returns
that error annotated with the path together with 0 bytes freed, for dry-run
and real mode alike, and performs no filesystem access at all — the trace is
empty, so no stat-driven removal attempt is reached. -/
theorem c1_validator_error_blocks_delete (c : Core.Ctx) (dryRun : Bool)
    (e : Str) (h : c.validateRes = some e) :
    Core.SafeDelete c dryRun =
      ((0, some (Core.DelErr.safetyCheckFailed c.path e)), []) := by
  unfold Core.SafeDelete
  rw [h]

theorem c1_validator_error_blocks_delete_witness :
    Core.SafeDelete c1ctx false =
      ((0, some (Core.DelErr.safetyCheckFailed "C:\\Windows".data
        "path is protected".data)), []) ∧
    Core.SafeDelete c1ctx true =
      ((0, some (Core.DelErr.safetyCheckFailed "C:\\Windows".data
        "path is protected".data)), []) :=
  ⟨c1_validator_error_blocks_delete c1ctx false "path is protected".data rfl,
   c1_validator_error_blocks_delete c1ctx true "path is protected".data rfl⟩

/-- C2 is violated by the code: `Add` validates only emptiness and
duplication, so the bare wildcard, a drive root, a root plus wildcard and a
shallow single-segment pattern are all accepted and appended, where the
claim (and the repository's own tests) require `PatternTooBroad` /
`PatternTooShallow` rejections.  This theorem evaluates `Add` at those
failing inputs. -/
theorem c2_add_accepts_broad_and_shallow_patterns :
    Whitelist.Add [] "*".data = .ok ["*".data] ∧
    Whitelist.Add [] "**".data = .ok ["**".data] ∧
    Whitelist.Add [] "C:\\".data = .ok ["C:\\".data] ∧
    Whitelist.Add [] "C:\\*".data = .ok ["C:\\*".data] ∧
    Whitelist.Add [] "C:\\Users".data = .ok ["C:\\Users".data] :=
  ⟨rfl, rfl, rfl, rfl, rfl⟩

/-- C3 is violated by the code: `IsWhitelisted` expands patterns with
`os.ExpandEnv`, which rewrites only the dollar syntaxes and leaves `%NAME%`
references literal, so a stored percent-style pattern (the very form used by
`defaultPatterns` and documented in the file header written by `Save`) never
matches the path it denotes, while the equivalent dollar-style pattern does.
The third conjunct confirms the true half of the claim at this input:
storage (`Add`) keeps the reference unexpanded. -/
theorem c3_percent_reference_not_expanded_at_match :
    Whitelist.IsWhitelisted envAlice ["%USERPROFILE%\\proj".data]
      "C:\\Users\\alice\\proj".data = false ∧
    Whitelist.IsWhitelisted envAlice ["$USERPROFILE\\proj".data]
      "C:\\Users\\alice\\proj".data = true ∧
    Whitelist.Add [] "%USERPROFILE%\\proj".data =
      .ok ["%USERPROFILE%\\proj".data] := by
  refine ⟨by decide, by decide, rfl⟩

/-- C8: on a validated, existing path, a dry run returns the computed size
with no error, and its trace contains no mutating effect — nothing is
removed, chmodded or written. -/
theorem c8_dry_run_mutates_nothing (c : Core.Ctx) (isDir : Bool) (sz : Int)
    (hv : c.validateRes = none) (hs : c.stat = Core.StatRes.ok isDir sz) :
    ∃ n, Core.SafeDelete c true =
        ((n, none), Core.Effect.lstat ::
          (if isDir then [Core.Effect.dirSize] else [])) ∧
      ∀ e ∈ (Core.SafeDelete c true).2, e.mutating = false := by
  unfold Core.SafeDelete
  rw [hv, hs]
  refine ⟨_, rfl, ?_⟩
  cases isDir <;> simp [Core.Effect.mutating]

theorem c8_dry_run_mutates_nothing_witness :
    ∃ n, Core.SafeDelete c8ctx true = ((n, none), [Core.Effect.lstat]) ∧
      ∀ e ∈ (Core.SafeDelete c8ctx true).2, e.mutating = false :=
  c8_dry_run_mutates_nothing c8ctx false 42 rfl rfl

/-- C4: characterisation of the removal retry loop, over every combination
of per-attempt outcomes, plus how `SafeDelete` wraps the loop result.  With
`k` the number of removal attempts actually made: at most 3 attempts happen;
the sleeps are exactly one per retry, doubling from the base delay; exactly
the attempts failing with access denied on a non-directory are followed by a
chmod; the loop continues past an attempt only when it failed transiently or
with remediable access-denied, and continues whenever budget remains in
those cases; the loop result is success at the last attempt made or the
error of its failure.  `SafeDelete` then returns `(size, nil)` on success and
`(0, deleteFailed path maxRetries lastErr)` on failure. -/
theorem c4_retry_backoff_and_classification :
    (∀ (r0 r1 r2 : Option Core.RmKind) (d : Bool),
      (1 ≤ c4Attempts d r0 r1 r2 ∧ c4Attempts d r0 r1 r2 ≤ 3) ∧
      (c4Loop d r0 r1 r2).1.filter isSleepEff =
        (List.range (c4Attempts d r0 r1 r2 - 1)).map
          (fun i => Core.Effect.sleep (Core.baseBackoffMs * 2 ^ i)) ∧
      (c4Loop d r0 r1 r2).1.count Core.Effect.chmod =
        ((List.range (c4Attempts d r0 r1 r2)).filter
          (fun i => adFile d ([r0, r1, r2].getD i none))).length ∧
      (∀ i, i < c4Attempts d r0 r1 r2 - 1 →
        (retriable ([r0, r1, r2].getD i none) ||
         adFile d ([r0, r1, r2].getD i none)) = true) ∧
      (∀ i, i < 2 → i < c4Attempts d r0 r1 r2 →
        (retriable ([r0, r1, r2].getD i none) ||
         adFile d ([r0, r1, r2].getD i none)) = true →
        i + 1 < c4Attempts d r0 r1 r2) ∧
      (c4Loop d r0 r1 r2).2 =
        (match [r0, r1, r2].getD (c4Attempts d r0 r1 r2 - 1) none with
         | none => .ok (c4Attempts d r0 r1 r2 - 1)
         | some e => .error (some e))) ∧
    (∀ (c : Core.Ctx) (isDir : Bool) (sz : Int),
      c.validateRes = none → c.stat = Core.StatRes.ok isDir sz →
      (∀ i, (Core.deleteLoop isDir [c.rm0, c.rm1, c.rm2] 0 none).2 = .ok i →
        ∃ n, (Core.SafeDelete c false).1 = (n, none)) ∧
      (∀ last,
        (Core.deleteLoop isDir [c.rm0, c.rm1, c.rm2] 0 none).2 = .error last →
        (Core.SafeDelete c false).1 =
          (0, some (Core.DelErr.deleteFailed c.path Core.maxRetries last)))) := by
  constructor
  · decide
  · intro c isDir sz hv hs
    unfold Core.SafeDelete
    rw [hv, hs]
    constructor
    · intro i h
      simp only [h]
      exact ⟨_, rfl⟩
    · intro last h
      simp only [h]
      rfl

theorem c4_retry_backoff_and_classification_witness :
    (Core.SafeDelete c4ctx false).1 =
      (0, some (Core.DelErr.deleteFailed "C:\\Temp\\locked.txt".data 3
        (some Core.RmKind.sharing))) :=
  (c4_retry_backoff_and_classification.2 c4ctx false 10 rfl rfl).2
    (some Core.RmKind.sharing) rfl

/-- The callback of `GetDirSize` returns nil on every entry, so the walk
threads no error anywhere. -/
theorem walkDir_no_error (t : Core.FsTree) :
    ∀ total, (Core.walkDir t total).2 = none := by
  refine @Core.FsTree.rec
    (fun t => ∀ total, (Core.walkDir t total).2 = none)
    (fun l => ∀ total, (Core.walkDirList l total).2 = none)
    ?_ ?_ ?_ ?_ ?_ t
  · intro a total
    cases a <;> simp [Core.walkDir]
  · intro total
    simp [Core.walkDir]
  · intro l ih total
    simpa [Core.walkDir] using ih total
  · intro total
    simp [Core.walkDirList]
  · intro a l iha ihl total
    simp only [Core.walkDirList]
    rcases hw : Core.walkDir a total with ⟨tot, e⟩
    have h := iha total
    rw [hw] at h
    simp only at h
    subst h
    simpa using ihl tot

/-- C10: `GetDirSize` succeeds on every input — the walk callback returns
nil on every entry, erroring or not, so `filepath.WalkDir` cannot fail and
the error-wrapping branch of `GetDirSize` is unreachable; consequently, on a
validated existing directory, `SafeDelete`'s size is always the walk total
and its fallback to size 0 is unreachable. -/
theorem c10_getdirsize_never_errors :
    (∀ root, ∃ n, Core.GetDirSize root = .ok n) ∧
    (∀ (c : Core.Ctx) (sz : Int),
      c.validateRes = none → c.stat = Core.StatRes.ok true sz →
      ∃ n, Core.GetDirSize c.walk = .ok n ∧
        Core.SafeDelete c true =
          ((n, none), [Core.Effect.lstat, Core.Effect.dirSize])) := by
  have key : ∀ root, ∃ n, Core.GetDirSize root = .ok n := by
    intro root
    cases root with
    | error e => exact ⟨0, rfl⟩
    | ok t =>
      rcases hw : Core.walkDir t 0 with ⟨tot, e⟩
      have h := walkDir_no_error t 0
      rw [hw] at h
      simp only at h
      subst h
      exact ⟨tot, by simp [Core.GetDirSize, hw]⟩
  refine ⟨key, ?_⟩
  intro c sz hv hs
  obtain ⟨n, hn⟩ := key c.walk
  refine ⟨n, hn, ?_⟩
  unfold Core.SafeDelete
  rw [hv, hs, hn]
  rfl

theorem c10_getdirsize_never_errors_witness :
    ∃ n, Core.GetDirSize c10ctx.walk = .ok n ∧
      Core.SafeDelete c10ctx true =
        ((n, none), [Core.Effect.lstat, Core.Effect.dirSize]) :=
  c10_getdirsize_never_errors.2 c10ctx 9 rfl rfl

/-- Unrolling `SafeCleanDir`'s match loop: starting from any accumulator,
the fold adds exactly the freed bytes and the count of the matches whose
`SafeDelete` succeeded, while appending every match's trace — failed matches
included — so no failure stops the batch. -/
theorem cleanStep_foldl (dryRun : Bool) :
    ∀ (ms : List Core.Ctx) (a : Int) (b : Nat) (es : List Core.Effect),
      ms.foldl (Core.cleanStep dryRun) (a, b, es) =
        (a + ((ms.filter fun m => (Core.SafeDelete m dryRun).1.2 = none).map
          fun m => (Core.SafeDelete m dryRun).1.1).sum,
         b + (ms.filter fun m => (Core.SafeDelete m dryRun).1.2 = none).length,
         es ++ (ms.map fun m => (Core.SafeDelete m dryRun).2).flatten) := by
  intro ms
  induction ms with
  | nil => intro a b es; simp
  | cons m ms ih =>
    intro a b es
    simp only [List.foldl_cons]
    rcases h : (Core.SafeDelete m dryRun).1.2 with _ | e
    · have hstep : Core.cleanStep dryRun (a, b, es) m =
          (a + (Core.SafeDelete m dryRun).1.1, b + 1,
            es ++ (Core.SafeDelete m dryRun).2) := by
        unfold Core.cleanStep
        simp only [h]
      rw [hstep, ih]
      simp [List.filter_cons, h, List.sum_cons]
      constructor
      · ring
      · omega
    · have hstep : Core.cleanStep dryRun (a, b, es) m =
          (a, b, es ++ (Core.SafeDelete m dryRun).2) := by
        unfold Core.cleanStep
        simp only [h]
      rw [hstep, ih]
      simp [List.filter_cons, h]

/-- C9: when the directory passes validation, exists, is a directory and the
glob parses, `SafeCleanDir` returns no error — a failing `SafeDelete` on a
match is swallowed, never aggregated — the totals count exactly the
successful deletions, and every match is processed (the trace contains every
match's `SafeDelete` trace, in order, failures included). -/
theorem c9_safecleandir_isolates_failures (c : Core.CleanCtx) (sz : Int)
    (ms : List Core.Ctx) (dryRun : Bool)
    (hv : c.validateRes = none) (hs : c.stat = Core.StatRes.ok true sz)
    (hg : c.globRes = .ok ms) :
    Core.SafeCleanDir c dryRun =
      ((((ms.filter fun m => (Core.SafeDelete m dryRun).1.2 = none).map
          fun m => (Core.SafeDelete m dryRun).1.1).sum,
        (ms.filter fun m => (Core.SafeDelete m dryRun).1.2 = none).length,
        none),
       Core.Effect.stat :: Core.Effect.glob ::
         (ms.map fun m => (Core.SafeDelete m dryRun).2).flatten) := by
  unfold Core.SafeCleanDir
  rw [hv, hs, hg]
  simp only [cleanStep_foldl dryRun ms 0 0 []]
  simp

theorem c9_safecleandir_isolates_failures_witness :
    (Core.SafeCleanDir c9ctx false).1 = (16, 2, none) := by
  rw [c9_safecleandir_isolates_failures c9ctx 0 [c9m1, c9m2, c9m3] false
    rfl rfl rfl]
  rfl

theorem splitNl_ne_nil (s : Str) : splitNl s ≠ [] := by
  cases s with
  | nil => simp [splitNl]
  | cons c cs =>
    simp only [splitNl]
    rcases hs : splitNl cs with _ | ⟨l, ls⟩
    · simp
    · by_cases hc : c = '\n' <;> simp [hc]

theorem splitNl_append_newline (a b : Str) (h : '\n' ∉ a) :
    splitNl (a ++ '\n' :: b) = a :: splitNl b := by
  induction a with
  | nil =>
    simp only [List.nil_append, splitNl]
    rcases hs : splitNl b with _ | ⟨l, ls⟩
    · exact absurd hs (splitNl_ne_nil b)
    · simp
  | cons c a ih =>
    have hc : c ≠ '\n' := fun he => h (he ▸ List.mem_cons_self c a)
    have ha : '\n' ∉ a := fun hm => h (List.mem_cons_of_mem c hm)
    simp only [List.cons_append, splitNl, List.append_eq]
    rw [ih ha]
    simp [hc]

/-- One line of input to the `Load` scanner: the processed line is either
skipped (blank or comment) or kept verbatim in front of the rest. -/
theorem loadLines_cons_line (a b : Str) (h : '\n' ∉ a) :
    Whitelist.loadLines (a ++ '\n' :: b) =
      (if trimSpace (dropCR a) = [] ∨ (trimSpace (dropCR a)).headD ' ' = '#'
       then Whitelist.loadLines b
       else trimSpace (dropCR a) :: Whitelist.loadLines b) := by
  unfold Whitelist.loadLines
  rw [splitNl_append_newline a b h]
  simp only [List.foldr_cons]

/-- C5 counterexample: the claim fails as stated — a stored pattern that
begins with `#` (which `Add` accepts) is written by `Save` as a line that
`Load` then skips as a comment, so the round trip loses it. -/
theorem c5_roundtrip_counterexample :
    Whitelist.load (some (Whitelist.saveContent ["#x".data])) ≠ ["#x".data] := by
  decide

/-- The pattern block written by `Save`, read back by `Load`'s scanner:
every pattern that survives line post-processing unchanged is reproduced. -/
theorem loadLines_body :
    ∀ ps : List Str,
      (∀ p ∈ ps, p ≠ [] ∧ '\n' ∉ p ∧ trimSpace (dropCR p) = p ∧
        p.headD ' ' ≠ '#') →
      Whitelist.loadLines (ps.foldr (fun p acc => p ++ '\n' :: acc) []) = ps
  | [], _ => by decide
  | p :: ps, h => by
    obtain ⟨hne, hnl, htr, hhd⟩ := h p (List.mem_cons_self p ps)
    simp only [List.foldr_cons]
    rw [loadLines_cons_line _ _ hnl, htr]
    rw [if_neg (by
      rintro (hc | hc)
      · exact hne hc
      · exact hhd hc)]
    rw [loadLines_body ps (fun q hq => h q (List.mem_cons_of_mem p hq))]

/-- C5, amended: `Save` followed by `Load` from the same file reproduces the
pattern list exactly — order and case preserved — for every state whose
patterns survive line post-processing unchanged: each pattern is non-empty,
contains no newline, is unchanged by the scanner's carriage-return stripping
and trimming, and does not begin with `#`. -/
theorem c5_roundtrip_amended (ps : List Str)
    (h : ∀ p ∈ ps, p ≠ [] ∧ '\n' ∉ p ∧ trimSpace (dropCR p) = p ∧
      p.headD ' ' ≠ '#') :
    Whitelist.load (some (Whitelist.saveContent ps)) = ps := by
  show Whitelist.loadLines (Whitelist.saveContent ps) = ps
  have e1 : Whitelist.loadLines (Whitelist.saveContent ps) =
      Whitelist.loadLines
        ("# WinMole whitelist — one glob pattern per line".data ++ '\n' ::
          ("# Lines starting with # are comments".data ++ '\n' ::
            ("# Environment variables (e.g. %USERPROFILE%) are expanded at runtime".data
              ++ '\n' ::
              ([] ++ '\n' :: ps.foldr (fun p acc => p ++ '\n' :: acc) [])))) := by
    unfold Whitelist.saveContent Whitelist.headerLines
    rfl
  rw [e1]
  rw [loadLines_cons_line _ _ (by decide), if_pos (by decide)]
  rw [loadLines_cons_line _ _ (by decide), if_pos (by decide)]
  rw [loadLines_cons_line _ _ (by decide), if_pos (by decide)]
  rw [loadLines_cons_line _ _ (by decide), if_pos (by decide)]
  exact loadLines_body ps h

theorem c5_roundtrip_amended_witness :
    Whitelist.load (some (Whitelist.saveContent Whitelist.defaultPatterns)) =
      Whitelist.defaultPatterns :=
  c5_roundtrip_amended Whitelist.defaultPatterns (by decide)

theorem uniqFold_append_singleton (l : List Str) (q : Str)
    (hu : Whitelist.uniqFold l = true)
    (ha : l.any (fun x => equalFold x q) = false) :
    Whitelist.uniqFold (l ++ [q]) = true := by
  induction l with
  | nil => simp [Whitelist.uniqFold]
  | cons x l ih =>
    simp only [List.any_cons, Bool.or_eq_false_iff] at ha
    obtain ⟨hxq, hlq⟩ := ha
    simp only [Whitelist.uniqFold, Bool.and_eq_true, Bool.not_eq_true'] at hu
    obtain ⟨hxl, hul⟩ := hu
    simp only [List.cons_append, Whitelist.uniqFold, List.any_append,
      List.any_cons, List.any_nil, Bool.and_eq_true, Bool.not_eq_true',
      Bool.or_eq_false_iff]
    refine ⟨?_, ih hul hlq⟩
    simp [hxl, hxq]

theorem removeFirst_mem (l : List Str) (q : Str) (l' : List Str)
    (h : Whitelist.removeFirst l q = some l') : ∀ y ∈ l', y ∈ l := by
  induction l generalizing l' with
  | nil => simp [Whitelist.removeFirst] at h
  | cons x l ih =>
    simp only [Whitelist.removeFirst] at h
    split at h
    · cases h
      intro y hy
      exact List.mem_cons_of_mem _ hy
    · rcases hr : Whitelist.removeFirst l q with _ | l''
      · rw [hr] at h
        cases h
      · rw [hr] at h
        cases h
        intro y hy
        rcases List.mem_cons.1 hy with rfl | hy'
        · exact List.mem_cons_self _ _
        · exact List.mem_cons_of_mem _ (ih l'' hr y hy')

theorem uniqFold_removeFirst (l : List Str) (q : Str) (l' : List Str)
    (hu : Whitelist.uniqFold l = true)
    (h : Whitelist.removeFirst l q = some l') :
    Whitelist.uniqFold l' = true := by
  induction l generalizing l' with
  | nil => simp [Whitelist.removeFirst] at h
  | cons x l ih =>
    simp only [Whitelist.uniqFold, Bool.and_eq_true, Bool.not_eq_true'] at hu
    obtain ⟨hxl, hul⟩ := hu
    simp only [Whitelist.removeFirst] at h
    split at h
    · cases h
      exact hul
    · rcases hr : Whitelist.removeFirst l q with _ | l''
      · rw [hr] at h
        cases h
      · rw [hr] at h
        cases h
        simp only [Whitelist.uniqFold, Bool.and_eq_true, Bool.not_eq_true']
        refine ⟨?_, ih l'' hul hr⟩
        rw [List.any_eq_false] at hxl ⊢
        intro y hy
        exact hxl y (removeFirst_mem l q l'' hr y hy)

/-- C6 counterexample: the claim fails for `Load` as stated — loading an
existing file whose lines repeat a pattern produces a stored list that
violates case-insensitive uniqueness, because the `Load` scanner appends
every non-comment line without any duplicate check. -/
theorem c6_uniqueness_counterexample :
    Whitelist.uniqFold (Whitelist.load (some "a\na".data)) = false := by
  decide

/-- C6, amended: `Add` and `Remove` preserve the case-insensitive-uniqueness
invariant, and the default pattern set seeded by `Load` when the backing
file is missing satisfies it; but `Load` from an existing file performs no
deduplication, so it preserves the invariant only when the file itself has
no duplicate lines. -/
theorem c6_uniqueness_amended :
    (∀ (l : List Str) (p : Str) (l' : List Str),
      Whitelist.uniqFold l = true → Whitelist.Add l p = .ok l' →
      Whitelist.uniqFold l' = true) ∧
    (∀ (l : List Str) (p : Str) (l' : List Str),
      Whitelist.uniqFold l = true → Whitelist.Remove l p = .ok l' →
      Whitelist.uniqFold l' = true) ∧
    Whitelist.uniqFold (Whitelist.load none) = true := by
  refine ⟨?_, ?_, by decide⟩
  · intro l p l' hu ha
    have ha' :
        (if trimSpace p = [] then
          (Except.error Whitelist.AddErr.emptyPattern :
            Except Whitelist.AddErr (List Str))
        else if (l.any fun existing => equalFold existing (trimSpace p)) = true
          then Except.error Whitelist.AddErr.duplicate
        else Except.ok (l ++ [trimSpace p])) = Except.ok l' := ha
    split at ha'
    · cases ha'
    · split at ha'
      · cases ha'
      · cases ha'
        next _ hdup =>
        exact uniqFold_append_singleton l (trimSpace p) hu
          (by simpa using hdup)
  · intro l p l' hu hr
    have hr' :
        (if trimSpace p = [] then
          (Except.error Whitelist.RemoveErr.emptyPattern :
            Except Whitelist.RemoveErr (List Str))
        else
          match Whitelist.removeFirst l (trimSpace p) with
          | some rest => Except.ok rest
          | none => Except.error Whitelist.RemoveErr.notFound) =
          Except.ok l' := hr
    split at hr'
    · cases hr'
    · rcases hf : Whitelist.removeFirst l (trimSpace p) with _ | l''
      · rw [hf] at hr'
        cases hr'
      · rw [hf] at hr'
        cases hr'
        exact uniqFold_removeFirst l (trimSpace p) l' hu hf

/-- `os.Expand` touches the input only at dollar signs, so a dollar-free
string expands to itself. -/
theorem expandFuel_no_dollar (env : Str → Str) :
    ∀ (fuel : Nat) (s : Str), '$' ∉ s → GoOs.expandFuel env fuel s = s := by
  intro fuel
  induction fuel with
  | zero => intro s _; rfl
  | succ f ih =>
    intro s h
    cases s with
    | nil => rfl
    | cons c cs =>
      have hc : ¬(c = '$' ∧ cs ≠ []) := by
        rintro ⟨rfl, -⟩
        exact h (List.mem_cons_self _ _)
      have hcs : '$' ∉ cs := fun hm => h (List.mem_cons_of_mem c hm)
      simp only [GoOs.expandFuel, if_neg hc]
      rw [ih cs hcs]

/-- `os.ExpandEnv` leaves a dollar-free pattern unchanged. -/
theorem expandEnv_no_dollar (env : Str → Str) (s : Str) (h : '$' ∉ s) :
    GoOs.expandEnv env s = s :=
  expandFuel_no_dollar env s.length s h

theorem strStarts_append_cons (a : Str) (c : Char) (t : Str) :
    strStarts (a ++ [c]) (a ++ c :: t) = true := by
  induction a with
  | nil => simp [strStarts]
  | cons x a ih => simpa [strStarts] using ih

/-- C7: for a pattern with no environment reference whose cleaned form has
no glob metacharacter, once added to an empty whitelist, `IsWhitelisted`
accepts every query path whose normal form equals the pattern's under
case-insensitive comparison and every query path nested under the pattern
directory; and (concretely) an unrelated sibling that merely shares a string
prefix — `keep2` against pattern `keep` — is rejected. -/
theorem c7_iswhitelisted_case_insensitive_and_nested :
    (∀ (env : Str → Str) (p q : Str),
      Whitelist.Add [] p = .ok [p] →
      '$' ∉ p →
      (∀ c ∈ GoFilepath.clean p, ¬(c = '*' ∨ c = '?' ∨ c = '[')) →
      (equalFold (GoFilepath.clean q) (GoFilepath.clean p) = true →
        Whitelist.IsWhitelisted env [p] q = true) ∧
      (∀ r, toLowerGo (GoFilepath.clean q) =
          toLowerGo (GoFilepath.clean p) ++ '\\' :: r →
        Whitelist.IsWhitelisted env [p] q = true)) ∧
    Whitelist.IsWhitelisted (fun _ => []) ["C:\\Users\\test\\AppData\\keep".data]
      "C:\\Users\\test\\AppData\\keep2".data = false := by
  constructor
  · intro env p q _ hdollar hmeta
    have hexp : GoOs.expandEnv env p = p := expandEnv_no_dollar env p hdollar
    constructor
    · intro heq
      simp only [Whitelist.IsWhitelisted, List.any_cons, List.any_nil,
        Bool.or_false, hexp, heq, Bool.true_or]
    · intro r hr
      have hany : ((GoFilepath.clean p).any
          fun c => decide (c = '*' ∨ c = '?' ∨ c = '[')) = false := by
        rw [List.any_eq_false]
        intro c hc
        simpa using hmeta c hc
      have hpre : strStarts
          (toLowerGo (GoFilepath.clean p) ++ ['\\'])
          (toLowerGo (GoFilepath.clean q) ++ ['\\']) = true := by
        rw [hr, List.append_assoc]
        exact strStarts_append_cons _ '\\' _
      simp only [Whitelist.IsWhitelisted, List.any_cons, List.any_nil,
        Bool.or_false, hexp, hany, hpre, Bool.not_false, Bool.true_and,
        Bool.and_true, Bool.or_true]
  · decide

theorem c7_iswhitelisted_case_insensitive_and_nested_witness :
    Whitelist.IsWhitelisted (fun _ => []) ["C:\\Users\\test\\AppData\\keep".data]
      "C:\\USERS\\TEST\\APPDATA\\KEEP".data = true ∧
    Whitelist.IsWhitelisted (fun _ => []) ["C:\\Users\\test\\AppData\\keep".data]
      "C:\\Users\\test\\AppData\\keep\\SubDir\\file.txt".data = true :=
  ⟨(c7_iswhitelisted_case_insensitive_and_nested.1 (fun _ => [])
      "C:\\Users\\test\\AppData\\keep".data
      "C:\\USERS\\TEST\\APPDATA\\KEEP".data
      (by decide) (by decide) (by decide)).1 (by decide),
   (c7_iswhitelisted_case_insensitive_and_nested.1 (fun _ => [])
      "C:\\Users\\test\\AppData\\keep".data
      "C:\\Users\\test\\AppData\\keep\\SubDir\\file.txt".data
      (by decide) (by decide) (by decide)).2
      "subdir\\file.txt".data (by decide)⟩

theorem c6_uniqueness_amended_witness :
    Whitelist.uniqFold ["C:\\a\\b\\c".data, "C:\\a\\b\\D".data] = true ∧
    Whitelist.uniqFold ["C:\\a\\b\\c".data] = true :=
  ⟨c6_uniqueness_amended.1 ["C:\\a\\b\\c".data] "C:\\a\\b\\D".data
      ["C:\\a\\b\\c".data, "C:\\a\\b\\D".data] (by decide) (by decide),
   c6_uniqueness_amended.2.1 ["C:\\a\\b\\c".data, "C:\\a\\b\\D".data]
      "c:\\A\\B\\d".data ["C:\\a\\b\\c".data] (by decide) (by decide)⟩
